import Mathlib

/-!
# Verification of the gapless-network-data core

Shallow embedding of the gap-completeness core of the repository:

* `deployment/vm/realtime_collector.py` — streaming ingestor with inline
  self-healing backfill, buffered batch flushing and graceful shutdown;
* `deployment/gcp-functions/gap-monitor/main.py` — gap scanner, two-tier
  gap tracker and health monitor.

Machine integers of the source are modelled as `Nat`/`Int` (block numbers are
non-negative and far from any overflow boundary; ClickHouse subtraction on
`UInt64` yields a signed result, modelled as `Int` where it matters).
Fallible external calls are modelled with explicit success parameters and
`Except`.
-/

namespace Gapless

/-! ## Constants (realtime_collector.py, gap-monitor/main.py) -/

/-- `INLINE_BACKFILL_THRESHOLD = 5` (realtime_collector.py line 71). -/
def INLINE_BACKFILL_THRESHOLD : Nat := 5

/-- `MAX_CONSECUTIVE_FAILURES = 10` (realtime_collector.py line 72). -/
def MAX_CONSECUTIVE_FAILURES : Nat := 10

/-- `GAP_DETECTION_LIMIT` default `20` (gap-monitor/main.py line 70). -/
def GAP_DETECTION_LIMIT : Nat := 20

/-- `STALENESS_THRESHOLD_SECONDS` default `960` (gap-monitor/main.py line 74). -/
def STALENESS_THRESHOLD_SECONDS : Nat := 960

/-- `GAP_GRACE_PERIOD_SECONDS` default `1800` (gap-monitor/main.py line 78). -/
def GAP_GRACE_PERIOD_SECONDS : Nat := 1800

/-! ## StreamIngestor state (realtime_collector.py)

`expected_next_block` (line 75), `missed_blocks` (line 76) and the keys handed
to `insert_block` (buffered in batch mode, written immediately otherwise;
either way the record has entered the persistence path) modelled as `store`.
-/

/-- Outcome of one `fetch_full_block` call: the JSON-RPC fetch either returns
a block body, returns `null` (`None` in Python, skipped by its callers), or
exhausts its retries and raises. -/
inductive FetchRes where
  | ok   : FetchRes
  | null : FetchRes
  | err  : FetchRes
deriving Repr, DecidableEq

/-- In-memory ingestor state of `realtime_collector.py`. -/
structure CollectorState where
  expected_next_block : Option Nat
  missed_blocks : List Nat
  store : List Nat
deriving Repr, DecidableEq

/-- Result of processing one resolved notification: the new state, the keys
the inline backfill synchronously attempted to fetch, and the gap the inline
check logged (start, end, `gap_size` as computed on line 126). -/
structure StepOut where
  state : CollectorState
  inlineFetched : List Nat
  gapDetected : Option (Nat × Nat × Nat)
deriving Repr, DecidableEq

/-- `track_missed_block` (realtime_collector.py lines 106-113): append the key
to `missed_blocks` unless already present. -/
def track_missed_block (missed : List Nat) (blockNumber : Nat) : List Nat :=
  if blockNumber ∈ missed then missed else missed ++ [blockNumber]

/-- One iteration of the `backfill_inline` loop body (lines 146-156): fetch the
block; on a body, parse and `insert_block` it; on `null`, skip; on an
exception, `track_missed_block`.  The second component records the keys the
loop synchronously attempted to fetch. -/
def backfill_step (fetchRes : Nat → FetchRes) (acc : CollectorState × List Nat)
    (n : Nat) : CollectorState × List Nat :=
  match fetchRes n with
  | FetchRes.ok =>
      ({ acc.1 with store := acc.1.store ++ [n] }, acc.2 ++ [n])
  | FetchRes.null => (acc.1, acc.2 ++ [n])
  | FetchRes.err =>
      ({ acc.1 with missed_blocks := track_missed_block acc.1.missed_blocks n },
        acc.2 ++ [n])

/-- `backfill_inline` (lines 141-156): run `backfill_step` for every block in
`range(start_block, end_block + 1)`. -/
def backfill_inline (fetchRes : Nat → FetchRes) (s : CollectorState)
    (startBlock endBlock : Nat) : CollectorState × List Nat :=
  (List.range' startBlock (endBlock + 1 - startBlock)).foldl
    (backfill_step fetchRes) (s, [])

/-- `update_expected_block` (lines 116-138): seed the cursor when unset;
on `received_block > expected_next_block` compute
`gap_size = received_block - expected_next_block`; backfill inline when
`gap_size ≤ INLINE_BACKFILL_THRESHOLD`, otherwise track every missing key;
always finish with `expected_next_block = received_block + 1`. -/
def update_expected_block (fetchRes : Nat → FetchRes) (s : CollectorState)
    (receivedBlock : Nat) : StepOut :=
  match s.expected_next_block with
  | none => ⟨{ s with expected_next_block := some (receivedBlock + 1) }, [], none⟩
  | some expected =>
    if expected < receivedBlock then
      let gapSize := receivedBlock - expected
      if gapSize ≤ INLINE_BACKFILL_THRESHOLD then
        let r := backfill_inline fetchRes s expected (receivedBlock - 1)
        ⟨{ r.1 with expected_next_block := some (receivedBlock + 1) }, r.2,
          some (expected, receivedBlock - 1, gapSize)⟩
      else
        let missed := (List.range' expected (receivedBlock - expected)).foldl
          track_missed_block s.missed_blocks
        let s' : CollectorState :=
          { expected_next_block := some (receivedBlock + 1)
            missed_blocks := missed
            store := s.store }
        ⟨s', [], some (expected, receivedBlock - 1, gapSize)⟩
    else
      ⟨{ s with expected_next_block := some (receivedBlock + 1) }, [], none⟩

/-- The per-notification path of `subscribe_to_blocks` (lines 563-570) after a
successful resolve: `insert_block(block_tuple)` then
`update_expected_block(block_number)`. -/
def process_resolved (fetchRes : Nat → FetchRes) (s : CollectorState)
    (receivedBlock : Nat) : StepOut :=
  update_expected_block fetchRes { s with store := s.store ++ [receivedBlock] }
    receivedBlock

/-! ## RecordBuffer / BatchFlusher (realtime_collector.py)

`block_buffer` (line 61) and the sink, with records modelled by their keys.
The single external effect, `flush_to_clickhouse`, either appends the whole
batch to the sink or raises; `sinkOk` is that outcome. -/

/-- Buffer-and-sink state of `realtime_collector.py`. -/
structure FlushState where
  buffer : List Nat
  sink : List Nat
deriving Repr, DecidableEq

/-- `flush_buffer` (lines 399-430): if the buffer is empty return 0;
otherwise copy and clear the buffer, then write the batch.  On a write
failure, `block_buffer.extend(blocks_to_insert)` restores the batch (the
buffer was just cleared, so it again holds the batch oldest-first) and the
exception propagates (`raise`), modelled as `Except.error`. -/
def flush_buffer (sinkOk : Bool) (s : FlushState) :
    FlushState × Except Unit Nat :=
  if s.buffer.isEmpty then (s, Except.ok 0)
  else
    let batch := s.buffer
    if sinkOk then
      ({ buffer := [], sink := s.sink ++ batch }, Except.ok batch.length)
    else
      ({ buffer := batch, sink := s.sink }, Except.error ())

/-- `graceful_shutdown` (lines 80-103): on SIGTERM/SIGINT, when
`BATCH_INTERVAL_SECONDS > 0`, call `flush_buffer` inside `try/except`
(a flush failure is logged and swallowed), then `sys.exit(0)`.  Returns the
buffer/sink state at process exit. -/
def graceful_shutdown (batchIntervalSeconds : Nat) (sinkOk : Bool)
    (s : FlushState) : FlushState :=
  if 0 < batchIntervalSeconds then (flush_buffer sinkOk s).1 else s

/-- One tick of `batch_flush_worker` (lines 433-454): call `flush_buffer`;
on success with a positive count reset the consecutive-failure counter; on an
exception increment it and return normally (the `except` clause catches every
exception, so nothing propagates past the worker). -/
def batch_flush_worker_tick (sinkOk : Bool) (s : FlushState)
    (consecutiveFailures : Nat) : FlushState × Nat :=
  match flush_buffer sinkOk s with
  | (s', Except.ok n) => (s', if 0 < n then 0 else consecutiveFailures)
  | (s', Except.error _) => (s', consecutiveFailures + 1)

/-! ## GapScanner (gap-monitor/main.py, `detect_gaps_clickhouse`)

The sink table is a list of row keys (the `number` column, possibly with
duplicate rows); the `FINAL` modifier of every query yields the deduplicated
view, modelled as `finalKeys`.  The `number` column is non-Nullable `Int64`
(scripts/clickhouse/create_schema.py), and ClickHouse aggregates over an
empty set return the column type's default value, so `COUNT`/`MIN`/`MAX` on
the empty table yield `(0, 0, 0)` — never `NULL`/`None` (the
`aggregate_functions_null_for_empty` setting that would opt into `NULL` is
nowhere enabled).  The `None` guards in the source (`if min_block is not
None`, main.py line 205; `if latest_block is None: raise ValueError`,
line 283) are therefore dead code under this backend. -/

/-- The deduplicated, ascending `ORDER BY number` view of the rows (the
`FINAL` canonical view). -/
def finalKeys (rows : List Nat) : List Nat :=
  List.insertionSort (· ≤ ·) rows.dedup

/-- One row of the gap query (main.py lines 219-239): aliases
`start_missing`, `end_missing`, `gap_size`.  `gap_size` is a signed ClickHouse
subtraction, hence `Int`. -/
structure GapRange where
  start_missing : Nat
  end_missing : Nat
  gap_size : Int
deriving Repr, DecidableEq

/-- The rows of the windowed gap query before `ORDER BY`/`LIMIT`
(main.py lines 219-239): `lagInFrame(number, 1)` pairs each ordered key with
its predecessor, with the type default `0` for the first row; a row is kept
when `gap_size = number - prev_block - 1 > 0` and reported as
`[prev_block + 1, number - 1]`. -/
def gapRowsOf (ks : List Nat) : List GapRange :=
  ((0 :: ks).zip ks).filterMap (fun p =>
    if 0 < (p.2 : Int) - (p.1 : Int) - 1 then
      some ⟨p.1 + 1, p.2 - 1, (p.2 : Int) - (p.1 : Int) - 1⟩
    else none)

/-- The spec's notion of maximal missing range, used to state claim C3: one
`[prev+1, cur-1]` for each adjacent pair of the deduplicated ordered key
sequence whose delta exceeds 1.  Unlike `gapRowsOf` this has no first-row
`lagInFrame` artifact. -/
def realGaps (ks : List Nat) : List GapRange :=
  (ks.zip ks.tail).filterMap (fun p =>
    if 0 < (p.2 : Int) - (p.1 : Int) - 1 then
      some ⟨p.1 + 1, p.2 - 1, (p.2 : Int) - (p.1 : Int) - 1⟩
    else none)

/-- `ORDER BY gap_size DESC` (main.py line 237). -/
def sizeDesc (a b : GapRange) : Prop := b.gap_size ≤ a.gap_size

instance : DecidableRel sizeDesc := fun _ _ => Int.decLe _ _

instance : IsTotal GapRange sizeDesc := ⟨fun a b => le_total b.gap_size a.gap_size⟩

instance : IsTrans GapRange sizeDesc := ⟨fun _ _ _ h1 h2 => le_trans h2 h1⟩

/-- Return value of `detect_gaps_clickhouse`
(`gaps, total, min_block, max_block`, main.py line 255; annotated
`tuple[list[dict], int, int, int]`). -/
structure ScanResult where
  gaps : List GapRange
  total : Nat
  min_block : Nat
  max_block : Nat
deriving Repr, DecidableEq

/-- `detect_gaps_clickhouse` (main.py lines 176-255): count/min/max with
`FINAL`; `expected = max - min + 1` (the `min_block is not None` guard on
line 205 never takes its `else`, since the client returns the default `0`,
not `None`, on the empty table, and the statistics print on line 208
formats plain ints); when `missing = expected - total > 0`, run the
windowed gap query and return its rows ordered by `gap_size` descending,
limited to `GAP_DETECTION_LIMIT`.  On the empty table `missing = 1 > 0`
but the window query yields no rows, so the scan returns `([], 0, 0, 0)`
without raising. -/
def detect_gaps (rows : List Nat) : ScanResult :=
  let ks := finalKeys rows
  let total := ks.length
  let minBlock := ks.head?.getD 0
  let maxBlock := ks.getLast?.getD 0
  let expected : Int := (maxBlock : Int) - (minBlock : Int) + 1
  let missing : Int := expected - (total : Int)
  if 0 < missing then
    ⟨(List.insertionSort sizeDesc (gapRowsOf ks)).take GAP_DETECTION_LIMIT,
      total, minBlock, maxBlock⟩
  else
    ⟨[], total, minBlock, maxBlock⟩

/-- The gap list a scan reports. -/
def scanGapsOf (rows : List Nat) : List GapRange :=
  (detect_gaps rows).gaps

/-- `check_staleness_clickhouse` (main.py lines 258-296): freshness is
`age_seconds <= STALENESS_THRESHOLD_SECONDS`.  `MAX(number)` returns the
non-Nullable column default `0` on the empty table, never `None`, so the
`ValueError` guard on line 283 is dead code.  The age (seconds between
`now` and the latest row's timestamp) is the only use of timestamps and is
passed in directly. -/
def check_staleness (rows : List Nat) (ageSeconds : Nat) : Bool × Nat :=
  (decide (ageSeconds ≤ STALENESS_THRESHOLD_SECONDS),
    (finalKeys rows).getLast?.getD 0)

/-! ## GapTracker (gap-monitor/main.py, two-tier alerting)

The `gap_tracking` table is a `ReplacingMergeTree` keyed by
`(gap_start, gap_end)` whose `FINAL` view keeps, per key, the most recently
inserted row (versioned by `last_seen`; every insert in this file carries a
fresh `last_seen = now`).  Modelled as an association list where an insert
replaces the key's row. -/

/-- One `gap_tracking` row (columns of main.py line 311). -/
structure TrackEntry where
  gap_size : Nat
  first_seen : Nat
  last_seen : Nat
  notified : Bool
deriving Repr, DecidableEq

/-- The `FINAL` view of the `gap_tracking` table. -/
abbrev TrackState := List ((Nat × Nat) × TrackEntry)

/-- Row lookup by `(gap_start, gap_end)` (the `WHERE` of main.py line 336). -/
def lookupGap (tr : TrackState) (key : Nat × Nat) : Option TrackEntry :=
  (tr.find? (fun p => p.1 == key)).map Prod.snd

/-- Insert a row: under `ReplacingMergeTree FINAL` the fresh row (newest
`last_seen`) replaces any previous row with the same key. -/
def upsert_row (tr : TrackState) (key : Nat × Nat) (e : TrackEntry) :
    TrackState :=
  tr.filter (fun p => ¬(p.1 == key)) ++ [(key, e)]

/-- `upsert_gap_tracking` (main.py lines 328-353): if the key exists, insert a
row keeping its `first_seen` with `last_seen = now` and `notified = false`
(the literal `false` on line 345); otherwise insert a brand-new row with
`first_seen = last_seen = now` and `notified = false`. -/
def upsert_gap_tracking (tr : TrackState) (gapStart gapEnd gapSize now : Nat) :
    TrackState :=
  match lookupGap tr (gapStart, gapEnd) with
  | some t =>
      upsert_row tr (gapStart, gapEnd) ⟨gapSize, t.first_seen, now, false⟩
  | none =>
      upsert_row tr (gapStart, gapEnd) ⟨gapSize, now, now, false⟩

/-- `mark_gap_notified` (main.py lines 356-369): re-insert the row with
`notified = true` (size recomputed as `gap_end - gap_start + 1`). -/
def mark_gap_notified (tr : TrackState) (gapStart gapEnd now : Nat) :
    TrackState :=
  match lookupGap tr (gapStart, gapEnd) with
  | some t =>
      upsert_row tr (gapStart, gapEnd)
        ⟨gapEnd - gapStart + 1, t.first_seen, now, true⟩
  | none => tr

/-- `delete_gap_tracking` (main.py lines 372-377): `ALTER TABLE ... DELETE`
by key. -/
def delete_gap_tracking (tr : TrackState) (gapStart gapEnd : Nat) :
    TrackState :=
  tr.filter (fun p => ¬(p.1 == (gapStart, gapEnd)))

/-- Return of `process_gap_tracking`
(`new_gaps, persistent_gaps, resolved_gaps`) plus the table state after the
scan. -/
structure TrackOut where
  new_gaps : List (Nat × Nat)
  persistent_gaps : List (Nat × Nat)
  resolved_gaps : List ((Nat × Nat) × TrackEntry)
  db : TrackState
deriving Repr, DecidableEq

/-- `process_gap_tracking` (main.py lines 380-454).  `tracked_gaps` is read
once at entry (the snapshot).  For each current gap `(gap_start, gap_end)`
(`gap_start = block_number`; `gap_end` parsed back out of the description
text, which the scanner built from `end_missing`): if untracked, record as
new and upsert; if tracked with
`age_seconds > GAP_GRACE_PERIOD_SECONDS and not notified`, record as
persistent and `mark_gap_notified`; otherwise upsert (which resets
`notified` to `false`).  Then every snapshot key absent from
`current_gap_keys` is resolved and deleted — where `current_gap_keys` is
built on line 398 from the field `end_block` with the fallback
`block_number`, and the scanner's dicts carry no `end_block` key, so it
holds `(start, start)` pairs. -/
def process_gap_tracking (tr : TrackState) (current : List GapRange)
    (now : Nat) : TrackOut :=
  let snapshot := tr
  let currentGapKeys : List (Nat × Nat) :=
    current.map (fun g => (g.start_missing, g.start_missing))
  let step1 := current.foldl
    (fun (acc : TrackOut) g =>
      let gapStart := g.start_missing
      let gapEnd := g.end_missing
      let gapSize := gapEnd - gapStart + 1
      match lookupGap snapshot (gapStart, gapEnd) with
      | none =>
          { acc with
            new_gaps := acc.new_gaps ++ [(gapStart, gapEnd)]
            db := upsert_gap_tracking acc.db gapStart gapEnd gapSize now }
      | some t =>
          let ageSeconds := now - t.first_seen
          if GAP_GRACE_PERIOD_SECONDS < ageSeconds ∧ t.notified = false then
            { acc with
              persistent_gaps := acc.persistent_gaps ++ [(gapStart, gapEnd)]
              db := mark_gap_notified acc.db gapStart gapEnd now }
          else
            { acc with
              db := upsert_gap_tracking acc.db gapStart gapEnd gapSize now })
    ⟨[], [], [], tr⟩
  snapshot.foldl
    (fun (acc : TrackOut) p =>
      if p.1 ∈ currentGapKeys then acc
      else
        { acc with
          resolved_gaps := acc.resolved_gaps ++ [p]
          db := delete_gap_tracking acc.db p.1.1 p.1.2 })
    step1

/-- Totals over a sequence of scan+track cycles. -/
structure ScanTotals where
  persistentTotal : Nat
  resolvedTotal : Nat
  db : TrackState
deriving Repr, DecidableEq

/-- Run the scan+track cycle at each time in `times` against a sink whose gap
list stays `current` throughout (the range stays open, unchanged), starting
from an empty tracking table; count the `persistent` and `resolved`
notifications fired (`monitor` sends exactly one notification per entry of
`persistent_gaps` / `resolved_gaps`, main.py lines 600-637). -/
def run_scans (current : List GapRange) (times : List Nat) : ScanTotals :=
  times.foldl
    (fun (acc : ScanTotals) t =>
      let o := process_gap_tracking acc.db current t
      ⟨acc.persistentTotal + o.persistent_gaps.length,
        acc.resolvedTotal + o.resolved_gaps.length, o.db⟩)
    ⟨0, 0, []⟩

/-! ## HealthReporter (`monitor`, gap-monitor/main.py lines 539-732) -/

/-- The `status` field of the HTTP response body. -/
inductive HealthStatus where
  | healthy : HealthStatus
  | unhealthy : HealthStatus
  | fatal_error : HealthStatus
deriving Repr, DecidableEq

/-- `monitor` (main.py lines 539-732): everything runs in one `try`.
`queriesOk` models the external calls that can raise before the verdict is
computed (secret loading, connection, query transport); the scan queries
themselves are total on every sink state.  On success,
`is_healthy = is_fresh and len(persistent_gaps) == 0` maps to HTTP 200,
otherwise 500; an exception is caught at the top level and yields 503. -/
def monitor (queriesOk : Bool) (rows : List Nat) (ageSeconds : Nat)
    (tr : TrackState) (now : Nat) : HealthStatus × Nat :=
  if queriesOk then
    let st := check_staleness rows ageSeconds
    let scan := detect_gaps rows
    let o := process_gap_tracking tr scan.gaps now
    if st.1 && o.persistent_gaps.isEmpty then (HealthStatus.healthy, 200)
    else (HealthStatus.unhealthy, 500)
  else (HealthStatus.fatal_error, 503)

/-- The number of persistent-gap notifications a scan+track cycle fires. -/
def persistentCount (rows : List Nat) (tr : TrackState) (now : Nat) : Nat :=
  (process_gap_tracking tr (detect_gaps rows).gaps now).persistent_gaps.length

/-! ## Helper lemmas: `track_missed_block` and `backfill_inline` -/

theorem track_missed_block_mem_of_mem {missed : List Nat} {j k : Nat}
    (h : j ∈ missed) : j ∈ track_missed_block missed k := by
  unfold track_missed_block
  split
  · exact h
  · exact List.mem_append_left _ h

theorem track_missed_block_self_mem (missed : List Nat) (k : Nat) :
    k ∈ track_missed_block missed k := by
  unfold track_missed_block
  split
  · assumption
  · exact List.mem_append_right _ (List.mem_singleton.mpr rfl)

theorem track_missed_block_nodup {missed : List Nat} (h : missed.Nodup)
    (k : Nat) : (track_missed_block missed k).Nodup := by
  unfold track_missed_block
  split
  · exact h
  · next hk =>
    refine List.Nodup.append h (List.nodup_singleton k) ?_
    intro a ha hb
    rw [List.mem_singleton] at hb
    exact hk (hb ▸ ha)

theorem foldl_track_mem_of_mem {l : List Nat} {missed : List Nat} {j : Nat}
    (h : j ∈ missed) : j ∈ l.foldl track_missed_block missed := by
  induction l generalizing missed with
  | nil => exact h
  | cons a t ih => exact ih (track_missed_block_mem_of_mem h)

theorem foldl_track_mem_of_mem_list {l : List Nat} {missed : List Nat} {j : Nat}
    (h : j ∈ l) : j ∈ l.foldl track_missed_block missed := by
  induction l generalizing missed with
  | nil => cases h
  | cons a t ih =>
    rw [List.foldl_cons]
    rcases List.mem_cons.mp h with h | h
    · subst h
      exact foldl_track_mem_of_mem (track_missed_block_self_mem missed _)
    · exact ih h

theorem foldl_track_nodup {l : List Nat} {missed : List Nat}
    (h : missed.Nodup) : (l.foldl track_missed_block missed).Nodup := by
  induction l generalizing missed with
  | nil => exact h
  | cons a t ih => exact ih (track_missed_block_nodup h a)

theorem backfill_step_missed_mono {acc : CollectorState × List Nat}
    {fetchRes : Nat → FetchRes} {j : Nat} (n : Nat)
    (h : j ∈ acc.1.missed_blocks) :
    j ∈ (backfill_step fetchRes acc n).1.missed_blocks := by
  unfold backfill_step
  cases fetchRes n
  · exact h
  · exact h
  · exact track_missed_block_mem_of_mem h

theorem backfill_foldl_missed_mono {l : List Nat}
    {acc : CollectorState × List Nat} {fetchRes : Nat → FetchRes} {j : Nat}
    (h : j ∈ acc.1.missed_blocks) :
    j ∈ (l.foldl (backfill_step fetchRes) acc).1.missed_blocks := by
  induction l generalizing acc with
  | nil => exact h
  | cons a t ih =>
    rw [List.foldl_cons]
    exact ih (backfill_step_missed_mono a h)

theorem backfill_foldl_store_of_ok {l : List Nat}
    {acc : CollectorState × List Nat} {fetchRes : Nat → FetchRes}
    (h : ∀ n ∈ l, fetchRes n = FetchRes.ok) :
    (l.foldl (backfill_step fetchRes) acc).1.store = acc.1.store ++ l := by
  induction l generalizing acc with
  | nil => simp
  | cons a t ih =>
    rw [List.foldl_cons]
    have ha : fetchRes a = FetchRes.ok := h a (List.mem_cons_self a t)
    have ht : ∀ n ∈ t, fetchRes n = FetchRes.ok :=
      fun n hn => h n (List.mem_cons_of_mem a hn)
    rw [show backfill_step fetchRes acc a =
        ({ acc.1 with store := acc.1.store ++ [a] }, acc.2 ++ [a]) by
      unfold backfill_step; rw [ha]]
    rw [ih ht]
    simp

/-! ## Helper lemmas: characterizations of `update_expected_block` -/

theorem update_expected_block_small_eq {fetchRes : Nat → FetchRes}
    {s : CollectorState} {e k : Nat} (he : s.expected_next_block = some e)
    (h1 : e < k) (h2 : k - e ≤ INLINE_BACKFILL_THRESHOLD) :
    update_expected_block fetchRes s k =
      ⟨{ (backfill_inline fetchRes s e (k - 1)).1 with
          expected_next_block := some (k + 1) },
        (backfill_inline fetchRes s e (k - 1)).2,
        some (e, k - 1, k - e)⟩ := by
  unfold update_expected_block
  rw [he]
  dsimp only
  rw [if_pos h1, if_pos h2]

theorem update_expected_block_large_eq {fetchRes : Nat → FetchRes}
    {s : CollectorState} {e k : Nat} (he : s.expected_next_block = some e)
    (h1 : e < k) (h2 : ¬(k - e ≤ INLINE_BACKFILL_THRESHOLD)) :
    update_expected_block fetchRes s k =
      ⟨⟨some (k + 1),
        (List.range' e (k - e)).foldl track_missed_block s.missed_blocks,
        s.store⟩, [], some (e, k - 1, k - e)⟩ := by
  unfold update_expected_block
  rw [he]
  dsimp only
  rw [if_pos h1, if_neg h2]

theorem update_missed_mono (fetchRes : Nat → FetchRes) (s : CollectorState)
    (k j : Nat) (hj : j ∈ s.missed_blocks) :
    j ∈ (update_expected_block fetchRes s k).state.missed_blocks := by
  unfold update_expected_block backfill_inline
  cases hs : s.expected_next_block with
  | none => exact hj
  | some e =>
    dsimp only
    by_cases h1 : e < k
    · rw [if_pos h1]
      by_cases h2 : k - e ≤ INLINE_BACKFILL_THRESHOLD
      · rw [if_pos h2]
        exact backfill_foldl_missed_mono hj
      · rw [if_neg h2]
        exact foldl_track_mem_of_mem hj
    · rw [if_neg h1]
      exact hj

/-! ## Helper lemmas: ordered key sequences (for claims C3 and C4) -/

theorem finalKeys_sorted (rows : List Nat) :
    List.Sorted (· ≤ ·) (finalKeys rows) :=
  List.sorted_insertionSort (· ≤ ·) rows.dedup

theorem finalKeys_nodup (rows : List Nat) : (finalKeys rows).Nodup :=
  ((List.perm_insertionSort (· ≤ ·) rows.dedup).nodup_iff).mpr
    (List.nodup_dedup rows)

theorem finalKeys_sorted_lt (rows : List Nat) :
    List.Sorted (· < ·) (finalKeys rows) :=
  ((finalKeys_sorted rows).and (finalKeys_nodup rows)).imp
    (fun h => lt_of_le_of_ne h.1 h.2)

theorem sorted_head_le {ks : List Nat} {mn : Nat}
    (hs : List.Sorted (· ≤ ·) ks) (hh : ks.head? = some mn) :
    ∀ m ∈ ks, mn ≤ m := by
  cases ks with
  | nil => cases hh
  | cons a t =>
    injection hh with hh
    subst hh
    intro m hm
    rcases List.mem_cons.mp hm with rfl | hm
    · exact le_refl _
    · exact (List.sorted_cons.mp hs).1 m hm

theorem sorted_le_getLast : ∀ {ks : List Nat} {mx : Nat},
    List.Sorted (· ≤ ·) ks → ks.getLast? = some mx → ∀ m ∈ ks, m ≤ mx := by
  intro ks
  induction ks with
  | nil => intro mx _ hl; cases hl
  | cons a t ih =>
    intro mx hs hl m hm
    cases t with
    | nil =>
      injection hl with hl
      subst hl
      rcases List.mem_cons.mp hm with rfl | hm
      · exact le_refl _
      · cases hm
    | cons b t2 =>
      rw [List.getLast?_cons_cons] at hl
      have hst := (List.sorted_cons.mp hs).2
      rcases List.mem_cons.mp hm with rfl | hm
      · exact le_trans ((List.sorted_cons.mp hs).1 b (List.mem_cons_self b t2))
          (ih hst hl b (List.mem_cons_self b t2))
      · exact ih hst hl m hm

theorem chain'_of_zip {P : Nat → Nat → Prop} : ∀ (ks : List Nat),
    (∀ p ∈ ks.zip ks.tail, P p.1 p.2) → List.Chain' P ks
  | [], _ => List.chain'_nil
  | [a], _ => List.chain'_singleton a
  | a :: b :: t, h => by
    rw [List.chain'_cons]
    refine ⟨h (a, b) (List.mem_cons_self _ _), chain'_of_zip (b :: t) ?_⟩
    intro p hp
    exact h p (List.mem_cons_of_mem _ hp)

theorem cover_of_chain : ∀ {ks : List Nat} {mn mx : Nat},
    List.Sorted (· < ·) ks → List.Chain' (fun x y => y ≤ x + 1) ks →
    ks.head? = some mn → ks.getLast? = some mx →
    ∀ m, mn ≤ m → m ≤ mx → m ∈ ks := by
  intro ks
  induction ks with
  | nil => intro mn mx _ _ hh; cases hh
  | cons a t ih =>
    intro mn mx hs hc hh hl m h1 h2
    injection hh with hh
    subst hh
    cases t with
    | nil =>
      injection hl with hl
      subst hl
      have hma : m = a := le_antisymm h2 h1
      rw [hma]
      exact List.mem_cons_self a []
    | cons b t2 =>
      by_cases hma : m = a
      · rw [hma]
        exact List.mem_cons_self _ _
      · have hab : a < b := (List.sorted_cons.mp hs).1 b (List.mem_cons_self _ _)
        have hba : b ≤ a + 1 := (List.chain'_cons.mp hc).1
        have hm2 : b ≤ m := by omega
        rw [List.getLast?_cons_cons] at hl
        exact List.mem_cons_of_mem a
          (ih (List.sorted_cons.mp hs).2 (List.chain'_cons.mp hc).2 rfl hl m hm2 h2)

theorem realGaps_subset_gapRows {ks : List Nat} {g : GapRange}
    (hg : g ∈ realGaps ks) : g ∈ gapRowsOf ks := by
  unfold realGaps at hg
  unfold gapRowsOf
  rw [List.mem_filterMap] at hg ⊢
  obtain ⟨p, hp, hfp⟩ := hg
  refine ⟨p, ?_, hfp⟩
  cases ks with
  | nil => exact absurd hp (by simp)
  | cons a t => exact List.mem_cons_of_mem _ hp

theorem adj_le_of_gapRows_nil {ks : List Nat} (h : gapRowsOf ks = [])
    {p : Nat × Nat} (hp : p ∈ ks.zip ks.tail) :
    ¬(0 < (p.2 : Int) - (p.1 : Int) - 1) := by
  unfold gapRowsOf at h
  rw [List.filterMap_eq_nil_iff] at h
  have hp' : p ∈ (0 :: ks).zip ks := by
    cases ks with
    | nil => exact absurd hp (by simp)
    | cons a t => exact List.mem_cons_of_mem _ hp
  have hnone := h p hp'
  intro hc
  rw [if_pos hc] at hnone
  cases hnone

theorem sorted_adj_no_between : ∀ {ks : List Nat},
    List.Sorted (· < ·) ks →
    ∀ p ∈ ks.zip ks.tail, ∀ x ∈ ks, x ≤ p.1 ∨ p.2 ≤ x := by
  intro ks
  induction ks with
  | nil => intro _ p hp; exact absurd hp (by simp)
  | cons a t ih =>
    intro hs p hp x hx
    cases t with
    | nil => exact absurd hp (by simp)
    | cons b t2 =>
      rcases List.mem_cons.mp hp with rfl | hp2
      · rcases List.mem_cons.mp hx with rfl | hx2
        · exact Or.inl (le_refl _)
        · exact Or.inr
            (sorted_head_le ((List.sorted_cons.mp hs).2.imp le_of_lt) rfl x hx2)
      · rcases List.mem_cons.mp hx with rfl | hx2
        · exact Or.inl (le_of_lt
            ((List.sorted_cons.mp hs).1 p.1 (List.of_mem_zip hp2).1))
        · exact ih (List.sorted_cons.mp hs).2 p hp2 x hx2

theorem missing_key_of_realGap {ks : List Nat} {mn mx : Nat} {g : GapRange}
    (hs : List.Sorted (· < ·) ks) (hh : ks.head? = some mn)
    (hl : ks.getLast? = some mx) (hg : g ∈ realGaps ks) :
    mn ≤ g.start_missing ∧ g.start_missing ≤ mx ∧ g.start_missing ∉ ks := by
  unfold realGaps at hg
  rw [List.mem_filterMap] at hg
  obtain ⟨p, hp, hfp⟩ := hg
  by_cases hc : 0 < (p.2 : Int) - (p.1 : Int) - 1
  case neg => rw [if_neg hc] at hfp; cases hfp
  rw [if_pos hc] at hfp
  injection hfp with hfp
  subst hfp
  dsimp only
  have hp1 : p.1 ∈ ks := (List.of_mem_zip hp).1
  have hp2 : p.2 ∈ ks := List.mem_of_mem_tail (List.of_mem_zip hp).2
  have hmn : mn ≤ p.1 := sorted_head_le (hs.imp le_of_lt) hh p.1 hp1
  have hmx : p.2 ≤ mx := sorted_le_getLast (hs.imp le_of_lt) hl p.2 hp2
  have hlt : p.1 + 1 < p.2 := by omega
  refine ⟨by omega, by omega, ?_⟩
  intro hmem
  rcases sorted_adj_no_between hs p hp (p.1 + 1) hmem with h | h
  · omega
  · omega

theorem missing_pos_of_not_mem {ks : List Nat} {mn mx m : Nat}
    (hs : List.Sorted (· < ·) ks) (hh : ks.head? = some mn)
    (hl : ks.getLast? = some mx) (h1 : mn ≤ m) (h2 : m ≤ mx) (hm : m ∉ ks) :
    0 < (mx : Int) - (mn : Int) + 1 - (ks.length : Int) := by
  have hnd : ks.Nodup := hs.imp Nat.ne_of_lt
  have hsub : ks.toFinset ⊆ (Finset.Icc mn mx).erase m := by
    intro x hx
    rw [List.mem_toFinset] at hx
    rw [Finset.mem_erase]
    exact ⟨fun he => hm (he ▸ hx),
      Finset.mem_Icc.mpr ⟨sorted_head_le (hs.imp le_of_lt) hh x hx,
        sorted_le_getLast (hs.imp le_of_lt) hl x hx⟩⟩
  have hcard := Finset.card_le_card hsub
  rw [List.toFinset_card_of_nodup hnd,
    Finset.card_erase_of_mem (Finset.mem_Icc.mpr ⟨h1, h2⟩), Nat.card_Icc] at hcard
  omega

theorem all_present_of_missing_nonpos {ks : List Nat} {mn mx : Nat}
    (hs : List.Sorted (· < ·) ks) (hh : ks.head? = some mn)
    (hl : ks.getLast? = some mx)
    (hm : ¬(0 < (mx : Int) - (mn : Int) + 1 - (ks.length : Int))) :
    ∀ m, mn ≤ m → m ≤ mx → m ∈ ks := by
  have hnd : ks.Nodup := hs.imp Nat.ne_of_lt
  have hsub : ks.toFinset ⊆ Finset.Icc mn mx := by
    intro x hx
    rw [List.mem_toFinset] at hx
    exact Finset.mem_Icc.mpr ⟨sorted_head_le (hs.imp le_of_lt) hh x hx,
      sorted_le_getLast (hs.imp le_of_lt) hl x hx⟩
  have hcard : (Finset.Icc mn mx).card ≤ ks.toFinset.card := by
    rw [List.toFinset_card_of_nodup hnd, Nat.card_Icc]
    omega
  have heq := Finset.eq_of_subset_of_card_le hsub hcard
  intro m h1 h2
  rw [← List.mem_toFinset, heq]
  exact Finset.mem_Icc.mpr ⟨h1, h2⟩

theorem all_present_of_gapRows_nil {ks : List Nat} {mn mx : Nat}
    (hs : List.Sorted (· < ·) ks) (hh : ks.head? = some mn)
    (hl : ks.getLast? = some mx) (hg : gapRowsOf ks = []) :
    ∀ m, mn ≤ m → m ≤ mx → m ∈ ks := by
  have hchain : List.Chain' (fun x y => y ≤ x + 1) ks := by
    apply chain'_of_zip
    intro p hp
    have hadj := adj_le_of_gapRows_nil hg hp
    omega
  exact cover_of_chain hs hchain hh hl

theorem missing_nonpos_of_all_present {ks : List Nat} {mn mx : Nat}
    (hnd : ks.Nodup) (hall : ∀ m, mn ≤ m → m ≤ mx → m ∈ ks) :
    ¬(0 < (mx : Int) - (mn : Int) + 1 - (ks.length : Int)) := by
  have hsub : Finset.Icc mn mx ⊆ ks.toFinset := by
    intro x hx
    rw [Finset.mem_Icc] at hx
    rw [List.mem_toFinset]
    exact hall x hx.1 hx.2
  have hcard := Finset.card_le_card hsub
  rw [Nat.card_Icc, List.toFinset_card_of_nodup hnd] at hcard
  omega

theorem finalKeys_ne_nil {rows : List Nat} (h : rows ≠ []) :
    finalKeys rows ≠ [] := by
  unfold finalKeys
  intro hc
  have hp := List.perm_insertionSort (· ≤ ·) rows.dedup
  rw [hc] at hp
  exact h ((List.dedup_eq_nil rows).mp (List.length_eq_zero.mp hp.length_eq.symm))

/-! ## Claim theorems -/

/-- C1 (code bug evaluation): the two-tier tracker does not fire exactly one
`persistent` notification per still-open range.  With grace period 1800 s and
a single-block range `[100,100]` present in every scan, scans at
`t = 0, 2000, 4000, 6000` fire TWO persistent notifications — the post-alert
scan's `upsert_gap_tracking` re-inserts the row with `notified = false`, so
the range re-alerts.  And a still-open multi-block range `[100,105]` fires a
spurious `resolved` notification on the very next scan after being tracked,
because `current_gap_keys` reads the nonexistent `end_block` field. -/
theorem C1_repeated_notifications :
    (run_scans [⟨100, 100, 1⟩] [0, 2000, 4000, 6000]).persistentTotal = 2 ∧
    (run_scans [⟨100, 105, 6⟩] [0, 2000]).resolvedTotal = 1 := by decide

/-- C2 (counterexample): with the cursor expecting 100, a resolved
notification for 103 is logged by the code as a gap of size `3`
(`received_block - expected_next_block`), not size `2` as the claim states. -/
theorem C2_gap_size_counterexample :
    (process_resolved (fun _ => FetchRes.ok) ⟨some 100, [], []⟩ 103).gapDetected
      ≠ some (100, 102, 2) := by decide

/-- C2 (amended): with inline threshold 5 and the cursor expecting 100,
processing a resolved notification for 103 detects the gap `[100,102]` with
size 3, synchronously fetches and inserts every missing key (provided the
fetches succeed), so keys 100–103 are all present afterwards and the cursor
equals 104. -/
theorem C2_small_gap_inline_backfill (fetchRes : Nat → FetchRes)
    (s : CollectorState) (he : s.expected_next_block = some 100)
    (hf : ∀ n, 100 ≤ n → n ≤ 102 → fetchRes n = FetchRes.ok) :
    (process_resolved fetchRes s 103).gapDetected = some (100, 102, 3) ∧
    (∀ m, 100 ≤ m → m ≤ 103 →
      m ∈ (process_resolved fetchRes s 103).state.store) ∧
    (process_resolved fetchRes s 103).state.expected_next_block = some 104 := by
  have h1 : (100 : Nat) < 103 := by omega
  have h2 : 103 - 100 ≤ INLINE_BACKFILL_THRESHOLD := by decide
  have hok : ∀ n ∈ [100, 101, 102], fetchRes n = FetchRes.ok := by
    intro n hn
    simp only [List.mem_cons, List.mem_singleton, List.not_mem_nil, or_false] at hn
    rcases hn with rfl | rfl | rfl
    · exact hf _ (by omega) (by omega)
    · exact hf _ (by omega) (by omega)
    · exact hf _ (by omega) (by omega)
  have hstep : process_resolved fetchRes s 103 =
      ⟨{ (backfill_inline fetchRes { s with store := s.store ++ [103] } 100
            (103 - 1)).1 with expected_next_block := some (103 + 1) },
        (backfill_inline fetchRes { s with store := s.store ++ [103] } 100
          (103 - 1)).2,
        some (100, 103 - 1, 103 - 100)⟩ := by
    unfold process_resolved
    exact @update_expected_block_small_eq fetchRes
      { s with store := s.store ++ [103] } 100 103 he h1 h2
  have hstore : (backfill_inline fetchRes { s with store := s.store ++ [103] }
      100 (103 - 1)).1.store = (s.store ++ [103]) ++ [100, 101, 102] := by
    unfold backfill_inline
    rw [show List.range' 100 (103 - 1 + 1 - 100) = [100, 101, 102] from rfl]
    rw [backfill_foldl_store_of_ok hok]
  rw [hstep]
  refine ⟨by norm_num, ?_, rfl⟩
  intro m hm1 hm2
  dsimp only
  rw [hstore]
  interval_cases m <;> simp

/-- C2 (witness): the amended theorem applied at the concrete initial state
`expected_next_block = 100`, empty sets, and an always-succeeding fetch. -/
theorem C2_small_gap_witness :
    (process_resolved (fun _ => FetchRes.ok) ⟨some 100, [], []⟩ 103).gapDetected
        = some (100, 102, 3) ∧
    101 ∈ (process_resolved (fun _ => FetchRes.ok) ⟨some 100, [], []⟩
        103).state.store ∧
    (process_resolved (fun _ => FetchRes.ok) ⟨some 100, [], []⟩
        103).state.expected_next_block = some 104 :=
  have h := C2_small_gap_inline_backfill (fun _ => FetchRes.ok)
    ⟨some 100, [], []⟩ rfl (fun _ _ _ => rfl)
  ⟨h.1, h.2.1 101 (by omega) (by omega), h.2.2⟩

/-- C5 (counterexample): shutdown durability does not hold unconditionally.
If the final flush's sink write fails, `graceful_shutdown` swallows the
exception and exits anyway: with buffer `[7]` the record 7 is not in the sink
after the handler completes. -/
theorem C5_shutdown_counterexample :
    7 ∈ (FlushState.mk [7] []).buffer ∧
    7 ∉ (graceful_shutdown 300 false ⟨[7], []⟩).sink := by decide

/-- C5 (amended): for any buffer contents when a termination signal arrives,
provided batching is enabled (`BATCH_INTERVAL_SECONDS > 0`) and the final
sink write succeeds, every buffered record is present in the sink after the
shutdown handler completes. -/
theorem C5_shutdown_durability (batchIntervalSeconds : Nat) (s : FlushState)
    (hi : 0 < batchIntervalSeconds) :
    ∀ r ∈ s.buffer, r ∈ (graceful_shutdown batchIntervalSeconds true s).sink := by
  intro r hr
  have hb : s.buffer.isEmpty = false := by
    cases hbuf : s.buffer with
    | nil => rw [hbuf] at hr; cases hr
    | cons a t => rfl
  unfold graceful_shutdown flush_buffer
  rw [if_pos hi, hb]
  simp [hr]

/-- C5 (witness): the amended theorem at buffer `[7]`, interval 300. -/
theorem C5_shutdown_witness :
    7 ∈ (graceful_shutdown 300 true ⟨[7], []⟩).sink :=
  C5_shutdown_durability 300 ⟨[7], []⟩ (by decide) 7 (by decide)

/-- C6: when the sink contains zero records, a gap scan returns an empty
list of gap ranges and does not raise an error: ClickHouse aggregates over
the empty table return the column defaults `(0, 0, 0)`, the statistics print
formats plain ints, `missing = 1 > 0` sends the scan into the window query,
which yields no rows over the empty table — so the scan returns
`([], 0, 0, 0)` (the model is a total function; no error path exists). -/
theorem C6_empty_sink_zero_ranges :
    detect_gaps [] = ⟨[], 0, 0, 0⟩ := rfl

/-- C7: when a resolved key `k` exceeds the cursor `e` by more than the
small-gap threshold, every missing key in `[e, k-1]` is added to
`missed_blocks`, no synchronous backfill fetch is performed, and the cursor
still advances to `k + 1`. -/
theorem C7_large_gap_nonblocking (fetchRes : Nat → FetchRes)
    (s : CollectorState) (e k : Nat)
    (he : s.expected_next_block = some e)
    (hgap : e + INLINE_BACKFILL_THRESHOLD < k) :
    (∀ m, e ≤ m → m < k →
      m ∈ (process_resolved fetchRes s k).state.missed_blocks) ∧
    (process_resolved fetchRes s k).inlineFetched = [] ∧
    (process_resolved fetchRes s k).state.expected_next_block = some (k + 1) := by
  have h5 : INLINE_BACKFILL_THRESHOLD = 5 := rfl
  have h1 : e < k := by omega
  have h2 : ¬(k - e ≤ INLINE_BACKFILL_THRESHOLD) := by omega
  have hstep : process_resolved fetchRes s k =
      ⟨⟨some (k + 1),
        (List.range' e (k - e)).foldl track_missed_block s.missed_blocks,
        s.store ++ [k]⟩, [], some (e, k - 1, k - e)⟩ := by
    unfold process_resolved
    exact @update_expected_block_large_eq fetchRes
      { s with store := s.store ++ [k] } e k he h1 h2
  rw [hstep]
  refine ⟨?_, rfl, rfl⟩
  intro m hm1 hm2
  exact foldl_track_mem_of_mem_list (List.mem_range'_1.mpr ⟨hm1, by omega⟩)

/-- C7 (witness): cursor 100, resolved key 110 (gap size 10 > 5): key 105 is
quarantined, nothing is fetched inline, cursor becomes 111. -/
theorem C7_large_gap_witness :
    105 ∈ (process_resolved (fun _ => FetchRes.ok) ⟨some 100, [], []⟩
        110).state.missed_blocks ∧
    (process_resolved (fun _ => FetchRes.ok) ⟨some 100, [], []⟩
        110).inlineFetched = [] ∧
    (process_resolved (fun _ => FetchRes.ok) ⟨some 100, [], []⟩
        110).state.expected_next_block = some 111 :=
  have h := C7_large_gap_nonblocking (fun _ => FetchRes.ok)
    ⟨some 100, [], []⟩ 100 110 rfl (by decide)
  ⟨h.1 105 (by omega) (by omega), h.2.1, h.2.2⟩

/-- C9 (code bug evaluation): keys quarantined in `missed_blocks` are never
removed.  Every operation of the collector that touches `missed_blocks` —
notification processing (with its inline backfill) and `track_missed_block`
itself — only preserves or extends membership; no code in the collector ever
reads the set back for a retry or removes an element from it. -/
theorem C9_missed_blocks_never_removed (fetchRes : Nat → FetchRes)
    (s : CollectorState) (k j : Nat) (hj : j ∈ s.missed_blocks) :
    j ∈ (process_resolved fetchRes s k).state.missed_blocks ∧
    j ∈ track_missed_block s.missed_blocks k :=
  ⟨update_missed_mono fetchRes { s with store := s.store ++ [k] } k j hj,
    track_missed_block_mem_of_mem hj⟩

/-- C9 (witness): a quarantined key 5 survives processing of key 103 from
cursor 100 and another `track_missed_block` call. -/
theorem C9_witness :
    5 ∈ (process_resolved (fun _ => FetchRes.ok) ⟨some 100, [5], []⟩
        103).state.missed_blocks ∧
    5 ∈ track_missed_block [5] 103 :=
  C9_missed_blocks_never_removed (fun _ => FetchRes.ok) ⟨some 100, [5], []⟩
    103 5 (by decide)

/-- C10: `missed_blocks` never contains duplicates: for every sequence of
`track_missed_block` calls starting from the initial empty set, each key
appears at most once, because membership is checked before appending. -/
theorem C10_missed_blocks_no_duplicates (calls : List Nat) :
    (calls.foldl track_missed_block []).Nodup :=
  foldl_track_nodup List.nodup_nil

/-- C8: when a batch write fails (nonempty buffer, failing sink), the tick of
`batch_flush_worker` leaves the buffer exactly as it was (whole batch
re-inserted oldest-first, nothing dropped), leaves the sink unchanged,
increments the consecutive-failure counter by one, and returns normally
(the worker's `except` swallows the exception, modelled by the tick being a
total function into plain state). -/
theorem C8_failed_flush_rebuffers (s : FlushState) (failures : Nat)
    (hb : s.buffer ≠ []) :
    (batch_flush_worker_tick false s failures).1.buffer = s.buffer ∧
    (batch_flush_worker_tick false s failures).1.sink = s.sink ∧
    (batch_flush_worker_tick false s failures).2 = failures + 1 := by
  have hbe : s.buffer.isEmpty = false := by
    cases hbuf : s.buffer with
    | nil => exact absurd hbuf hb
    | cons a t => rfl
  unfold batch_flush_worker_tick flush_buffer
  rw [hbe]
  simp

/-- C8 (witness): buffer `[1,2]`, sink `[0]`, counter 4: after a failed tick
the buffer is still `[1,2]`, the sink `[0]`, the counter 5. -/
theorem C8_failed_flush_witness :
    (batch_flush_worker_tick false ⟨[1, 2], [0]⟩ 4).1.buffer = [1, 2] ∧
    (batch_flush_worker_tick false ⟨[1, 2], [0]⟩ 4).1.sink = [0] ∧
    (batch_flush_worker_tick false ⟨[1, 2], [0]⟩ 4).2 = 5 :=
  C8_failed_flush_rebuffers ⟨[1, 2], [0]⟩ 4 (by decide)

/-- C3 (counterexample): the scan does not emit every maximal missing range.
With 22 keys whose 21 gaps have the distinct sizes 21..1, `LIMIT 20`
(`GAP_DETECTION_LIMIT`) drops the smallest gap `[251, 251]`: it is a maximal
missing range of the deduplicated ordered key sequence but absent from the
returned list. -/
theorem C3_limit_counterexample :
    (⟨251, 251, 1⟩ : GapRange) ∈ realGaps (finalKeys [0, 22, 43, 63, 82, 100,
      117, 133, 148, 162, 175, 187, 198, 208, 217, 225, 232, 238, 243, 247,
      250, 252]) ∧
    (⟨251, 251, 1⟩ : GapRange) ∉ scanGapsOf [0, 22, 43, 63, 82, 100, 117, 133,
      148, 162, 175, 187, 198, 208, 217, 225, 232, 238, 243, 247, 250,
      252] := by decide

/-- C3 (amended): for every non-empty sink, whenever the gap query yields at
most `GAP_DETECTION_LIMIT` (20) rows, every maximal missing range `[prev+1,
cur-1]` (consecutive-key delta > 1 over the deduplicated ordered key
sequence) appears in the returned list (in general only the 20 largest query
rows are returned); and the count-versus-`(max-min+1)` pre-check makes the
scan return zero ranges exactly when no key between min and max is
missing. -/
theorem C3_gap_scan_amended (rows : List Nat) (scan : ScanResult) (mn mx : Nat)
    (hne : rows ≠ []) (hok : detect_gaps rows = scan)
    (hmin : scan.min_block = mn) (hmax : scan.max_block = mx) :
    ((gapRowsOf (finalKeys rows)).length ≤ GAP_DETECTION_LIMIT →
      ∀ g ∈ realGaps (finalKeys rows), g ∈ scan.gaps) ∧
    (scan.gaps = [] ↔ ∀ m, mn ≤ m → m ≤ mx → m ∈ finalKeys rows) := by
  subst hok
  cases hh : (finalKeys rows).head? with
  | none => exact absurd (List.head?_eq_none_iff.mp hh) (finalKeys_ne_nil hne)
  | some mn2 =>
  cases hl : (finalKeys rows).getLast? with
  | none => exact absurd (List.getLast?_eq_none_iff.mp hl) (finalKeys_ne_nil hne)
  | some mx2 =>
  unfold detect_gaps at hmin hmax ⊢
  dsimp only at hmin hmax ⊢
  rw [hh, hl] at hmin hmax ⊢
  simp only [Option.getD_some] at hmin hmax ⊢
  by_cases hm : 0 < (mx2 : Int) - (mn2 : Int) + 1 - ((finalKeys rows).length : Int)
  · rw [if_pos hm] at hmin hmax ⊢
    dsimp only at hmin hmax ⊢
    subst hmin
    subst hmax
    refine ⟨?_, ?_, ?_⟩
    · intro h20 g hg
      have hsub : g ∈ gapRowsOf (finalKeys rows) := realGaps_subset_gapRows hg
      have hperm := List.perm_insertionSort sizeDesc (gapRowsOf (finalKeys rows))
      rw [List.take_of_length_le (by rw [hperm.length_eq]; exact h20)]
      exact hperm.mem_iff.mpr hsub
    · intro hnil m h1 h2
      rw [List.take_eq_nil_iff] at hnil
      rcases hnil with h20 | hnil
      · exact absurd h20 (by decide)
      · have hgnil : gapRowsOf (finalKeys rows) = [] := by
          have hperm := List.perm_insertionSort sizeDesc
            (gapRowsOf (finalKeys rows))
          rw [hnil] at hperm
          exact List.length_eq_zero.mp hperm.length_eq.symm
        exact all_present_of_gapRows_nil (finalKeys_sorted_lt rows) hh hl
          hgnil m h1 h2
    · intro hall
      exact absurd hm (missing_nonpos_of_all_present (finalKeys_nodup rows) hall)
  · rw [if_neg hm] at hmin hmax ⊢
    dsimp only at hmin hmax ⊢
    subst hmin
    subst hmax
    refine ⟨?_, ?_⟩
    · intro h20 g hg
      exfalso
      obtain ⟨ha, hb, hc⟩ := missing_key_of_realGap (finalKeys_sorted_lt rows)
        hh hl hg
      exact hm (missing_pos_of_not_mem (finalKeys_sorted_lt rows) hh hl ha hb hc)
    · exact iff_of_true rfl
        (all_present_of_missing_nonpos (finalKeys_sorted_lt rows) hh hl hm)

/-- C3 (witness): sink `[5,6,9]` (2 query rows ≤ 20): the maximal missing
range `[7,8]` appears in the returned list. -/
theorem C3_gap_scan_witness :
    (⟨7, 8, 2⟩ : GapRange) ∈
      (ScanResult.mk [⟨1, 4, 4⟩, ⟨7, 8, 2⟩] 3 5 9).gaps :=
  (C3_gap_scan_amended [5, 6, 9] ⟨[⟨1, 4, 4⟩, ⟨7, 8, 2⟩], 3, 5, 9⟩
    5 9 (by decide) rfl rfl rfl).1 (by decide) ⟨7, 8, 2⟩ (by decide)

/-- C4: for every scan+health cycle that completes its queries (non-empty
sink, no transport failure), the verdict is healthy with HTTP 200 exactly
when the latest record's age is within the staleness threshold and the count
of persistent gap ranges fired this cycle is zero, and unhealthy with HTTP
500 otherwise; a failure of the cycle's own queries yields the distinct
fatal verdict with HTTP 503. -/
theorem C4_monitor_verdict (rows : List Nat) (ageSeconds : Nat)
    (tr : TrackState) (now : Nat) (_hne : rows ≠ []) :
    monitor true rows ageSeconds tr now =
      (if ageSeconds ≤ STALENESS_THRESHOLD_SECONDS ∧
          persistentCount rows tr now = 0
        then (HealthStatus.healthy, 200) else (HealthStatus.unhealthy, 500)) ∧
    monitor false rows ageSeconds tr now = (HealthStatus.fatal_error, 503) := by
  refine ⟨?_, rfl⟩
  unfold monitor check_staleness persistentCount
  dsimp only
  by_cases hc : ageSeconds ≤ STALENESS_THRESHOLD_SECONDS ∧
      (process_gap_tracking tr (detect_gaps rows).gaps
        now).persistent_gaps.length = 0
  · rw [if_pos hc]
    have hb : (decide (ageSeconds ≤ STALENESS_THRESHOLD_SECONDS) &&
        (process_gap_tracking tr (detect_gaps rows).gaps
          now).persistent_gaps.isEmpty) = true := by
      rw [Bool.and_eq_true, decide_eq_true_eq]
      exact ⟨hc.1, List.isEmpty_iff.mpr (List.length_eq_zero.mp hc.2)⟩
    rw [if_pos hb]
    rfl
  · rw [if_neg hc]
    have hb : ¬((decide (ageSeconds ≤ STALENESS_THRESHOLD_SECONDS) &&
        (process_gap_tracking tr (detect_gaps rows).gaps
          now).persistent_gaps.isEmpty) = true) := by
      rw [Bool.and_eq_true, decide_eq_true_eq]
      intro hbt
      exact hc ⟨hbt.1, by
        rw [List.length_eq_zero]
        exact List.isEmpty_iff.mp hbt.2⟩
    rw [if_neg hb]
    rfl

/-- C4 (witness): sink `[5,6,7]`, age 100 s, empty tracking table, at `now = 0`:
the 200/500 verdict follows the freshness-and-no-persistent-gaps condition,
and a query failure yields 503. -/
theorem C4_monitor_witness :
    monitor true [5, 6, 7] 100 [] 0 =
      (if 100 ≤ STALENESS_THRESHOLD_SECONDS ∧ persistentCount [5, 6, 7] [] 0 = 0
        then (HealthStatus.healthy, 200) else (HealthStatus.unhealthy, 500)) ∧
    monitor false [5, 6, 7] 100 [] 0 = (HealthStatus.fatal_error, 503) :=
  C4_monitor_verdict [5, 6, 7] 100 [] 0 (by decide)

end Gapless
